import Mathlib

/-!
Verification development for the `chroma_code` repository (Rust).

The Extractor (`src/parser.rs`) is shallowly embedded here:

* `parse_header` and its helper functions model `parser.rs::parse_header`,
  including the concrete behaviour of the regex
  `chroma_code:\s*(?:caption:\s*(?P<caption>.*?))?\s*(?:label:\s*(?P<label>.*?))?$`
  under the regex crate's leftmost-first / lazy-greedy preference semantics
  (which are deterministic for this particular pattern, see `matchTail`).
* `extract_highlighted_pieces` models `parser.rs::extract_highlighted_pieces`
  on an already parsed HTML tree (`Node`); the external HTML parser
  (`scraper::Html::parse_document`, an external crate, not repository code)
  is abstracted as a function `String → Node` where needed.
* `extract_from_bytes` models the UTF-8 decoding step at the top of
  `extract_highlighted_pieces` (`String::from_utf8` followed by
  `std::process::exit(exitcode::DATAERR)` on failure).

Strings are modelled as lists of characters where convenient.  Whitespace
(`char::is_whitespace` in Rust, `\s` in the regex crate) is modelled by Lean's
`Char.isWhitespace` (space, tab, CR, LF); the inputs this program handles are
produced by tree-sitter and contain no exotic Unicode whitespace.
-/

namespace ChromaCode

/-- The fields of `main.rs::CliArgs` that the parser / header logic reads. -/
structure CliArgs where
  caption : String
  label : String
  header_comment_types : String
  default_color : String
  skip_first_line : Bool
  verbose : Bool
deriving Repr, DecidableEq

/-- `main.rs::HighlightedText`. -/
structure HighlightedText where
  text : String
  hex_color : String
  bold : Bool
  underline : Bool
  italic : Bool
deriving Repr, DecidableEq

/-- `parser.rs::HeaderInfo`. -/
structure HeaderInfo where
  caption : Option String
  label : Option String
deriving Repr, DecidableEq

/-! ### Whitespace and substring helpers -/

/-- Drop leading whitespace (`\s*` consuming maximally / `str::trim_start`). -/
def wsDrop (cs : List Char) : List Char := cs.dropWhile Char.isWhitespace

/-- Drop trailing whitespace (`str::trim_end`). -/
def wsDropEnd (cs : List Char) : List Char := cs.rdropWhile Char.isWhitespace

/-- Rust `str::trim` on a character list. -/
def charTrim (cs : List Char) : List Char := wsDropEnd (wsDrop cs)

/-- Rust `str::contains(needle)` on character lists: some suffix of the
haystack starts with the needle. -/
def charsSub (needle : List Char) : List Char → Bool
  | [] => needle.isEmpty
  | c :: cs => needle.isPrefixOf (c :: cs) || charsSub needle cs

/-- Rust `str::contains` on strings (used for the bold/underline/italic
keyword checks at parser.rs lines 95-97). -/
def strContainsSub (hay needle : String) : Bool := charsSub needle.data hay.data

/-! ### The hex-color regex `#[0-9a-fA-F]{6}` (parser.rs line 63) -/

/-- A hexadecimal digit as accepted by the character class `[0-9a-fA-F]`. -/
def isHexDigitChar (c : Char) : Bool :=
  ('0' ≤ c && c ≤ '9') || ('a' ≤ c && c ≤ 'f') || ('A' ≤ c && c ≤ 'F')

/-- Try to match `#[0-9a-fA-F]{6}` at the head of the list. -/
def hexAt : List Char → Option (List Char)
  | '#' :: rest =>
    let six := rest.take 6
    if six.length == 6 && six.all isHexDigitChar then some ('#' :: six) else none
  | _ => none

/-- Leftmost match of `#[0-9a-fA-F]{6}` (`Regex::find` at parser.rs line 87). -/
def findHex : List Char → Option (List Char)
  | [] => none
  | c :: cs =>
    match hexAt (c :: cs) with
    | some m => some m
    | none => findHex cs

/-- `hex_color_regex.find(style_text)` as an `Option String`. -/
def findHexColor (s : String) : Option String := (findHex s.data).map String.mk

/-! ### The color match (parser.rs lines 88-91) -/

/-- The `match capture { ... }` at parser.rs lines 88-91.  The first arm's
pattern is the lowercase identifier `none`, which in Rust is an irrefutable
*binding* pattern (it is not the `Option::None` constructor), so the first arm
matches every value and the `Some` arm is unreachable dead code (rustc reports
an unreachable-pattern warning for it).  The embedding therefore returns
`"000000"` for every argument. -/
def parsedColor (capture : Option String) : String :=
  match capture with
  | _capture => "000000"

/-- The body of the unreachable `Some` arm at parser.rs line 90:
`capture.as_str().replace('#', "").to_uppercase()` — every `#` removed, the
remaining (ASCII hex digit) characters uppercased. -/
def someArmColor (capture : String) : String :=
  String.mk ((capture.data.filter (fun c => c ≠ '#')).map Char.toUpper)

/-! ### HTML trees and the `td.line` selector -/

/-- A parsed HTML node: an element with a tag name, an attribute list and
children, or a text node.  This is the shape of the tree that
`scraper::Html::parse_document` hands to the extractor. -/
inductive Node where
  | element : String → List (String × String) → List Node → Node
  | text : String → Node
deriving Repr, Inhabited

/-- Attribute lookup (`Element::attr`): first binding of the name wins. -/
def attrLookup (attrs : List (String × String)) (name : String) : Option String :=
  (attrs.find? (fun p => p.1 == name)).map (fun p => p.2)

/-- Whether the word `w` occurs in `cs` delimited by whitespace (start of the
string or a whitespace character on the left, end of the string or a
whitespace character on the right). -/
def wordAt (w cs : List Char) : Bool :=
  w.isPrefixOf cs &&
    (match cs.drop w.length with
     | [] => true
     | c :: _ => c.isWhitespace)

/-- Scan for a whitespace-delimited word; `atBoundary` records whether the
current position follows the start of the string or a whitespace character. -/
def hasWordAux (w : List Char) : Bool → List Char → Bool
  | _, [] => false
  | atBoundary, c :: cs =>
    (atBoundary && wordAt w (c :: cs)) || hasWordAux w c.isWhitespace cs

/-- Membership of a word in a whitespace-separated class list, the semantics
of a CSS class selector on the `class` attribute. -/
def hasClassWord (w cs : List Char) : Bool := hasWordAux w true cs

/-- Whether an element matches the selector `td.line` (parser.rs line 51):
tag name `td` and a whitespace-separated class list containing `line`. -/
def isLineElem (tag : String) (attrs : List (String × String)) : Bool :=
  tag == "td" && hasClassWord "line".data ((attrLookup attrs "class").getD "").data

mutual
/-- The elements matching `td.line` in a subtree, in document order
(pre-order), as produced by `document.select(&line_class_selector)` at
parser.rs line 52.  Nested matches are all reported. -/
def selectLinesNode : Node → List Node
  | Node.text _ => []
  | Node.element t a cs =>
    (if isLineElem t a then [Node.element t a cs] else []) ++ selectLinesList cs
/-- `selectLinesNode` over a list of sibling subtrees. -/
def selectLinesList : List Node → List Node
  | [] => []
  | n :: ns => selectLinesNode n ++ selectLinesList ns
end

/-- The `td.line` elements of a document in document order. -/
def selectLines (document : Node) : List Node := selectLinesNode document

mutual
/-- The `(node_text, parent_element_attrs)` pairs contributed by one child of
an element with attributes `a`: a text child is paired with `a`, an element
child contributes its own subtree.  This is the sequence the descendant loop
at parser.rs lines 65-84 visits: in the parsed tree every text descendant of a
line element has its enclosing element as parent, so the
`child.parent()`-is-`None` and parent-is-not-an-element fallbacks at lines
69-84 are unreachable. -/
def textsInChild (a : List (String × String)) : Node → List (String × List (String × String))
  | Node.text s => [(s, a)]
  | Node.element _ b cs => textsUnder b cs
/-- `textsInChild` over the children list of an element with attributes `a`. -/
def textsUnder (a : List (String × String)) : List Node → List (String × List (String × String))
  | [] => []
  | n :: ns => textsInChild a n ++ textsUnder a ns
end

/-- The `(node_text, parent_element_attrs)` pairs visited below a line node. -/
def textsIn : Node → List (String × List (String × String))
  | Node.text _ => []
  | Node.element _ a cs => textsUnder a cs

mutual
/-- The visible text pieces of a node's subtree, in document order. -/
def visText : Node → List String
  | Node.text s => [s]
  | Node.element _ _ cs => visTextList cs
/-- `visText` over a list of sibling subtrees. -/
def visTextList : List Node → List String
  | [] => []
  | n :: ns => visText n ++ visTextList ns
end

mutual
/-- The text pieces of a subtree that lie below at least one `td.line`
element, each taken once, in document order (the set-like reading of "visible
text content restricted to the matched line nodes"). -/
def textsUnderLinesNode (inLine : Bool) : Node → List String
  | Node.text s => if inLine then [s] else []
  | Node.element t a cs => textsUnderLinesList (inLine || isLineElem t a) cs
/-- `textsUnderLinesNode` over a list of sibling subtrees. -/
def textsUnderLinesList (inLine : Bool) : List Node → List String
  | [] => []
  | n :: ns => textsUnderLinesNode inLine n ++ textsUnderLinesList inLine ns
end

/-! ### The extractor core (parser.rs lines 49-110) -/

/-- The style text of a text node's parent element (parser.rs line 86):
`parent_element.attr("style").unwrap_or("color: #000000")`. -/
def styleText (parentAttrs : List (String × String)) : String :=
  (attrLookup parentAttrs "style").getD "color: #000000"

/-- Construction of one `HighlightedText` from a text node and its parent's
attributes (parser.rs lines 86-99). -/
def mkRun (node_text : String) (parentAttrs : List (String × String)) : HighlightedText :=
  let style_text := styleText parentAttrs
  let capture := findHexColor style_text
  let parsed_color := parsedColor capture
  { text := node_text
    hex_color := parsed_color
    bold := strContainsSub style_text "bold"
    underline := strContainsSub style_text "underline"
    italic := strContainsSub style_text "italic" }

/-- The runs produced from one line element. -/
def lineRuns (line : Node) : List HighlightedText :=
  (textsIn line).map (fun p => mkRun p.1 p.2)

/-- `parser.rs::extract_highlighted_pieces`, lines 49-110, on the parsed
document: select `td.line` elements, drop the first one when
`conf.skip_first_line` is set (lines 54-60), then emit one `HighlightedText`
per text descendant, in document order. -/
def extract_highlighted_pieces (document : Node) (conf : CliArgs) : List HighlightedText :=
  let lines := selectLines document
  let lines_iter := lines.enum.filterMap
    (fun p => if conf.skip_first_line && p.1 == 0 then none else some p.2)
  lines_iter.flatMap lineRuns

/-! ### UTF-8 decoding (parser.rs lines 42-45) -/

/-- A UTF-8 continuation byte, `0x80..=0xBF`. -/
def utf8Cont (b : Nat) : Bool := 128 ≤ b && b ≤ 191

/-- A UTF-8 decoder over byte values, with exactly the validity rules of
Rust's `String::from_utf8` (RFC 3629: no overlong forms, no surrogates, max
U+10FFFF): `none` on invalid input, the decoded characters otherwise. -/
def utf8Decode : List Nat → Option (List Char)
  | [] => some []
  | b0 :: rest =>
    if b0 ≤ 0x7F then
      (utf8Decode rest).map (fun cs => Char.ofNat b0 :: cs)
    else if 0xC2 ≤ b0 && b0 ≤ 0xDF then
      match rest with
      | b1 :: rest1 =>
        if utf8Cont b1 then
          (utf8Decode rest1).map (fun cs => Char.ofNat ((b0 - 0xC0) * 64 + (b1 - 0x80)) :: cs)
        else none
      | [] => none
    else if 0xE0 ≤ b0 && b0 ≤ 0xEF then
      match rest with
      | b1 :: b2 :: rest2 =>
        if (if b0 == 0xE0 then 0xA0 ≤ b1 && b1 ≤ 0xBF
            else if b0 == 0xED then 0x80 ≤ b1 && b1 ≤ 0x9F
            else utf8Cont b1) && utf8Cont b2 then
          (utf8Decode rest2).map
            (fun cs => Char.ofNat ((b0 - 0xE0) * 4096 + (b1 - 0x80) * 64 + (b2 - 0x80)) :: cs)
        else none
      | _ => none
    else if 0xF0 ≤ b0 && b0 ≤ 0xF4 then
      match rest with
      | b1 :: b2 :: b3 :: rest3 =>
        if (if b0 == 0xF0 then 0x90 ≤ b1 && b1 ≤ 0xBF
            else if b0 == 0xF4 then 0x80 ≤ b1 && b1 ≤ 0x8F
            else utf8Cont b1) && utf8Cont b2 && utf8Cont b3 then
          (utf8Decode rest3).map
            (fun cs =>
              Char.ofNat ((b0 - 0xF0) * 262144 + (b1 - 0x80) * 4096 + (b2 - 0x80) * 64 + (b3 - 0x80)) :: cs)
        else none
      | _ => none
    else none

/-- Outcome of running the extractor on raw bytes: either the process exits
with `exitcode::DATAERR` before any run is produced (parser.rs lines 42-45),
or the extraction result is returned. -/
inductive ExtractResult where
  | dataErrExit
  | ok (pieces : List HighlightedText)
deriving Repr, DecidableEq

/-- parser.rs lines 40-49: decode the captured stdout bytes as UTF-8; on
failure print an apology and `std::process::exit(exitcode::DATAERR)` (no runs
are produced); on success hand the decoded string to the external HTML parser
(`scraper::Html::parse_document`, abstracted here as the parameter `parse`)
and run the extraction loop on the resulting tree. -/
def extract_from_bytes (parse : String → Node) (stdout : List Nat) (conf : CliArgs) :
    ExtractResult :=
  match utf8Decode stdout with
  | none => ExtractResult.dataErrExit
  | some cs => ExtractResult.ok (extract_highlighted_pieces (parse (String.mk cs)) conf)

/-! ### The header regex (parser.rs lines 14-38)

The pattern is
`chroma_code:\s*(?:caption:\s*(?P<caption>.*?))?\s*(?:label:\s*(?P<label>.*?))?$`
run by `Regex::captures`, i.e. searched (not anchored) over the trimmed first
line.  A match must start at an occurrence of the literal `chroma_code:`.  For
this pattern the regex crate's preference semantics are deterministic:

* every `\s*` consumes maximally (each continuation starts with a
  non-whitespace literal or is the end anchor, so giving whitespace back can
  never help);
* the optional groups prefer to be present, and once `caption:` (resp.
  `label:`) is found at the current position the group's interior always
  matches through to `$`, so no cross-group backtracking occurs;
* the lazy `(?P<caption>.*?)` takes the shortest prefix after which the
  continuation `\s*(?:label:\s*(?P<label>.*?))?$` matches, the candidate
  positions being tried left to right from the position after the maximal
  whitespace run;
* the lazy `(?P<label>.*?)` is followed by `$`, so it captures everything up
  to the end of the haystack.

The haystack is a single line (`str::lines` has removed any `\n`), so the fact
that `.` does not match a newline is irrelevant. -/

/-- Whether the continuation `\s*(?:label:\s*(?P<label>.*?))?$` matches the
whole remainder: after maximal whitespace, either the literal `label:` starts
(the group matches through to the end) or the remainder is exhausted. -/
def contOk (cs : List Char) : Bool :=
  let r := wsDrop cs
  "label:".data.isPrefixOf r || r.isEmpty

/-- Split off the lazy caption capture: the shortest prefix after which the
continuation matches, together with the remainder.  The remainder always
satisfies `contOk` (the empty remainder does). -/
def splitCont : List Char → List Char × List Char
  | [] => ([], [])
  | c :: cs =>
    if contOk (c :: cs) then ([], c :: cs)
    else
      let p := splitCont cs
      (c :: p.1, p.2)

/-- Match the regex tail after the literal `chroma_code:`.  Returns the
(caption, label) capture pair on success, `none` when the pattern cannot match
at this occurrence. -/
def matchTail (cs : List Char) : Option (Option (List Char) × Option (List Char)) :=
  let r1 := wsDrop cs
  if "caption:".data.isPrefixOf r1 then
    let body := wsDrop (r1.drop 8)
    let p := splitCont body
    let r2 := wsDrop p.2
    if "label:".data.isPrefixOf r2 then
      some (some p.1, some (wsDrop (r2.drop 6)))
    else
      some (some p.1, none)
  else if "label:".data.isPrefixOf r1 then
    some (none, some (wsDrop (r1.drop 6)))
  else if r1.isEmpty then
    some (none, none)
  else none

/-- `Regex::captures` for the header pattern: try each occurrence of the
literal `chroma_code:` left to right; the leftmost occurrence at which the
tail matches provides the capture groups. -/
def findCaptures : List Char → Option (Option (List Char) × Option (List Char))
  | [] => none
  | c :: cs =>
    if "chroma_code:".data.isPrefixOf (c :: cs) then
      match matchTail ((c :: cs).drop 12) with
      | some r => some r
      | none => findCaptures cs
    else findCaptures cs

/-- Rust's `content.lines().next()`: `None` on the empty string, otherwise the
text before the first `\n`, with one trailing `\r` stripped when the `\n` was
present. -/
def firstLineChars (cs : List Char) : Option (List Char) :=
  if cs.isEmpty then none
  else
    let pre := cs.takeWhile (fun c => c ≠ '\n')
    if pre.length < cs.length then
      some (if pre.getLast? == some '\r' then pre.dropLast else pre)
    else some pre

/-- The `for comment_type in comment_types` loop of `parse_header`
(parser.rs lines 16-35): the first comment type that prefixes the first line
*and* whose trimmed remainder yields a capture with a caption or a label
produces the result. -/
def tryCommentTypes (fl : List Char) : List String → Option HeaderInfo
  | [] => none
  | ct :: rest =>
    if ct.data.isPrefixOf fl then
      let trimmed_line := charTrim (fl.drop ct.data.length)
      match findCaptures trimmed_line with
      | some caps =>
        let caption := caps.1.map (fun m => String.mk (charTrim m))
        let label := caps.2.map (fun m => String.mk (charTrim m))
        if caption.isSome || label.isSome then some ⟨caption, label⟩
        else tryCommentTypes fl rest
      | none => tryCommentTypes fl rest
    else tryCommentTypes fl rest

/-- `parser.rs::parse_header` (lines 14-38). -/
def parse_header (content : String) (comment_types : List String) : Option HeaderInfo :=
  match firstLineChars content.data with
  | some fl => tryCommentTypes fl comment_types
  | none => none

/-- Rust's `str::split(",")` collected into a vector (main.rs line 184):
comma-separated pieces, empty pieces preserved, the empty string giving
`[""]`. -/
def splitCommaAux : List Char → List Char → List String
  | [], acc => [String.mk acc.reverse]
  | c :: cs, acc =>
    if c = ',' then String.mk acc.reverse :: splitCommaAux cs []
    else splitCommaAux cs (c :: acc)

/-- `conf.header_comment_types.split(",")`. -/
def splitComma (s : String) : List String := splitCommaAux s.data []

/-- The use of `parse_header` in `main.rs` (lines 184-190): a parsed header
overrides the configured caption and label and makes the extractor skip the
first highlighted line; otherwise the configuration is untouched. -/
def applyHeader (conf : CliArgs) (content : String) : CliArgs :=
  match parse_header content (splitComma conf.header_comment_types) with
  | some hi =>
    { conf with
        caption := hi.caption.getD conf.caption
        label := hi.label.getD conf.label
        skip_first_line := true }
  | none => conf

/-! ### Concrete inputs used as witnesses and counterexamples -/

/-- A default configuration, with the CLI defaults of `main.rs`. -/
def conf0 : CliArgs :=
  { caption := "caption-text", label := "label-text",
    header_comment_types := "#,//", default_color := "000000",
    skip_first_line := false, verbose := false }

/-- One highlighted line whose single styled node is red:
`<td class="line"><span style="color: #ff0000">x</span></td>`. -/
def docRed : Node :=
  Node.element "td" [("class", "line")]
    [Node.element "span" [("style", "color: #ff0000")] [Node.text "x"]]

/-- One highlighted line whose styled node carries no style attribute:
`<td class="line"><span>x</span></td>`. -/
def docNoStyle : Node :=
  Node.element "td" [("class", "line")] [Node.element "span" [] [Node.text "x"]]

/-- One highlighted line with a bold node:
`<td class="line"><span style="font-weight: bold">x</span></td>`. -/
def docBold : Node :=
  Node.element "td" [("class", "line")]
    [Node.element "span" [("style", "font-weight: bold")] [Node.text "x"]]

/-- A `td.line` element nested inside another `td.line` element (via an inner
table), with a single text node `x` below both. -/
def nestedDoc : Node :=
  Node.element "td" [("class", "line")]
    [Node.element "table" []
      [Node.element "tr" []
        [Node.element "td" [("class", "line")] [Node.text "x"]]]]

/-- First highlighted line of the two-line document `doc2`. -/
def tdA : Node := Node.element "td" [("class", "line")] [Node.text "a"]

/-- Second highlighted line of the two-line document `doc2`. -/
def tdB : Node := Node.element "td" [("class", "line")] [Node.text "b"]

/-- A two-line highlighted document. -/
def doc2 : Node := Node.element "table" [] [Node.element "tr" [] [tdA], Node.element "tr" [] [tdB]]

/-- A convention-(b) document: `<span>` elements with inline styles nested in
`<pre><code>`, and no table rows marked as line containers. -/
def preCodeSpanDoc (spans : List (List (String × String) × String)) : Node :=
  Node.element "html" []
    [Node.element "body" []
      [Node.element "pre" []
        [Node.element "code" []
          (spans.map (fun p => Node.element "span" p.1 [Node.text p.2]))]]]

/-- The one-span convention-(b) document
`<pre><code><span style="color: #ff0000">hello</span></code></pre>`. -/
def spanDoc : Node := preCodeSpanDoc [([("style", "color: #ff0000")], "hello")]

/-- A document without any `td.line` element. -/
def docNoLines : Node := Node.element "div" [] [Node.text "x"]

/-! ## Lemmas about substring search -/

theorem charsSub_of_front_match {n l : List Char} (h : n <+: l) : charsSub n l = true := by
  cases l with
  | nil =>
    have : n = [] := List.prefix_nil.mp h
    simp [this, charsSub]
  | cons c cs =>
    simp only [charsSub, Bool.or_eq_true]
    exact Or.inl (List.isPrefixOf_iff_prefix.mpr h)

theorem not_prefix_of_charsSub {n l : List Char} (h : charsSub n l = false) : ¬ n <+: l :=
  fun hp => by simp [charsSub_of_front_match hp] at h

theorem charsSub_tail {n : List Char} {c : Char} {cs : List Char}
    (h : charsSub n (c :: cs) = false) : charsSub n cs = false := by
  simp only [charsSub, Bool.or_eq_false_iff] at h
  exact h.2

theorem charsSub_dropWhile {n : List Char} (p : Char → Bool) :
    ∀ {l : List Char}, charsSub n l = false → charsSub n (l.dropWhile p) = false
  | [], h => h
  | c :: cs, h => by
    rw [List.dropWhile_cons]
    by_cases hp : p c = true
    · simp only [hp, if_true]
      exact charsSub_dropWhile p (charsSub_tail h)
    · simp only [hp, if_false]
      exact h

/-! ## Lemmas about `isPrefixOf` -/

theorem isPrefixOf_append_self (A X : List Char) : A.isPrefixOf (A ++ X) = true :=
  List.isPrefixOf_iff_prefix.mpr (List.prefix_append A X)

theorem isPrefixOf_cons_ne {a b : Char} (as bs : List Char) (h : a ≠ b) :
    (a :: as).isPrefixOf (b :: bs) = false := by
  simp [List.isPrefixOf, h]

theorem isPrefixOf_nil_false {a : Char} (as : List Char) :
    (a :: as).isPrefixOf ([] : List Char) = false := rfl

/-- A proper chunk of `label:` followed by a space is never `label:`:
if `label:` is a prefix of `c ++ ' ' :: t` then it is already a prefix of
`c` (no occurrence of `label:` can straddle the boundary because no
character of `label:` is a space). -/
theorem label_not_prefix_append {c : List Char} (t : List Char)
    (hc : ¬ "label:".data <+: c) :
    ¬ "label:".data <+: (c ++ ' ' :: t) := by
  intro hp
  rcases Nat.lt_or_ge c.length 6 with hlen | hlen
  · -- the prefix would straddle the boundary: position `c.length` holds `' '`
    have hx : ' ' ∈ "label:".data := by
      have h6 : ("label:".data).length = 6 := by decide
      rcases hp with ⟨r, hr⟩
      have hq : ("label:".data ++ r)[c.length]? = (c ++ ' ' :: t)[c.length]? := by rw [hr]
      rw [List.getElem?_append_left (by omega),
        List.getElem?_append_right (Nat.le_refl _), Nat.sub_self] at hq
      simp only [List.getElem?_cons_zero] at hq
      exact List.getElem?_mem hq
    revert hx
    decide
  · -- the prefix fits inside `c`
    apply hc
    have h6 : ("label:".data).length = 6 := by decide
    have : "label:".data = (c ++ ' ' :: t).take 6 := by
      rcases hp with ⟨r, hr⟩
      rw [← hr, List.take_left' h6]
    rw [this, List.take_append_of_le_length (h6 ▸ hlen)]
    exact List.take_prefix 6 c

/-! ## Lemmas about whitespace trimming -/

theorem wsDrop_nil : wsDrop [] = [] := rfl

theorem wsDrop_cons_pos {c : Char} (cs : List Char) (h : c.isWhitespace = true) :
    wsDrop (c :: cs) = wsDrop cs := by
  simp [wsDrop, List.dropWhile_cons, h]

theorem wsDrop_cons_neg {c : Char} (cs : List Char) (h : c.isWhitespace = false) :
    wsDrop (c :: cs) = c :: cs := by
  simp [wsDrop, List.dropWhile_cons, h]

theorem wsDrop_space (cs : List Char) : wsDrop (' ' :: cs) = wsDrop cs :=
  wsDrop_cons_pos cs (by decide)

theorem wsDrop_eq_nil_iff {l : List Char} :
    wsDrop l = [] ↔ ∀ x ∈ l, x.isWhitespace = true := List.dropWhile_eq_nil_iff

theorem wsDrop_append_keep {A : List Char} (X : List Char) (h : wsDrop A = A) (hA : A ≠ []) :
    wsDrop (A ++ X) = A ++ X := by
  rw [wsDrop, List.dropWhile_append]
  have : (List.dropWhile Char.isWhitespace A).isEmpty = false := by
    rw [← wsDrop] at *
    rw [h]
    simpa [List.isEmpty_iff] using hA
  rw [this]
  simp only [Bool.false_eq_true, if_false]
  rw [← wsDrop, h]

theorem wsDrop_append_all {A : List Char} (X : List Char) (h : wsDrop A = []) :
    wsDrop (A ++ X) = wsDrop X := by
  rw [wsDrop, List.dropWhile_append]
  have h1 : (List.dropWhile Char.isWhitespace A).isEmpty = true := by
    rw [show List.dropWhile Char.isWhitespace A = wsDrop A from rfl, h]; rfl
  rw [h1]
  simp [wsDrop]

theorem wsDropEnd_nil : wsDropEnd [] = [] := rfl

theorem wsDropEnd_eq_nil_iff {l : List Char} :
    wsDropEnd l = [] ↔ ∀ x ∈ l, x.isWhitespace = true := List.rdropWhile_eq_nil_iff

theorem wsDropEnd_cons (c : Char) (l : List Char) :
    wsDropEnd (c :: l) =
      if wsDropEnd l = [] then (if c.isWhitespace then [] else [c]) else c :: wsDropEnd l := by
  show List.rdropWhile _ (c :: l) = _
  rw [List.rdropWhile, List.reverse_cons, List.dropWhile_append]
  by_cases h : wsDropEnd l = []
  · have h1 : (List.dropWhile Char.isWhitespace l.reverse).isEmpty = true := by
      have : List.dropWhile Char.isWhitespace l.reverse = (wsDropEnd l).reverse := by
        simp [wsDropEnd, List.rdropWhile]
      rw [this, h]; rfl
    rw [h1]
    simp only [if_true, h, if_pos rfl]
    by_cases hc : c.isWhitespace = true
    · simp [List.dropWhile_cons, hc]
    · simp [List.dropWhile_cons, hc]
  · have h1 : (List.dropWhile Char.isWhitespace l.reverse).isEmpty = false := by
      have : List.dropWhile Char.isWhitespace l.reverse = (wsDropEnd l).reverse := by
        simp [wsDropEnd, List.rdropWhile]
      rw [this]
      simpa [List.isEmpty_iff] using h
    rw [h1]
    simp only [Bool.false_eq_true, if_false, if_neg h]
    have : List.dropWhile Char.isWhitespace l.reverse = (wsDropEnd l).reverse := by
      simp [wsDropEnd, List.rdropWhile]
    rw [this]
    simp

theorem wsDropEnd_append_right {t : List Char} (l : List Char) (h : wsDropEnd t ≠ []) :
    wsDropEnd (l ++ t) = l ++ wsDropEnd t := by
  show List.rdropWhile _ _ = _
  rw [List.rdropWhile, List.reverse_append, List.dropWhile_append]
  have h1 : (List.dropWhile Char.isWhitespace t.reverse).isEmpty = false := by
    have : List.dropWhile Char.isWhitespace t.reverse = (wsDropEnd t).reverse := by
      simp [wsDropEnd, List.rdropWhile]
    rw [this]
    simpa [List.isEmpty_iff] using h
  rw [h1]
  simp only [Bool.false_eq_true, if_false]
  have : List.dropWhile Char.isWhitespace t.reverse = (wsDropEnd t).reverse := by
    simp [wsDropEnd, List.rdropWhile]
  rw [this]
  simp [wsDropEnd]

theorem wsDropEnd_append_all {t : List Char} (l : List Char)
    (h : ∀ x ∈ t, x.isWhitespace = true) :
    wsDropEnd (l ++ t) = wsDropEnd l := by
  show List.rdropWhile _ _ = _
  rw [List.rdropWhile, List.reverse_append, List.dropWhile_append]
  have h1 : (List.dropWhile Char.isWhitespace t.reverse).isEmpty = true := by
    have : List.dropWhile Char.isWhitespace t.reverse = [] :=
      List.dropWhile_eq_nil_iff.mpr (fun x hx => h x (List.mem_reverse.mp hx))
    rw [this]; rfl
  rw [h1]
  simp [wsDropEnd, List.rdropWhile]

/-- Decomposition of a list into its right-trimmed part and the trailing
whitespace run that `wsDropEnd` removes. -/
theorem wsDropEnd_decomp (l : List Char) :
    l = wsDropEnd l ++ l.drop (wsDropEnd l).length ∧
      ∀ x ∈ l.drop (wsDropEnd l).length, x.isWhitespace = true := by
  have hdecomp : l = wsDropEnd l ++ (l.reverse.takeWhile Char.isWhitespace).reverse := by
    conv_lhs => rw [← List.reverse_reverse l,
      ← List.takeWhile_append_dropWhile Char.isWhitespace l.reverse]
    rw [List.reverse_append]
    rfl
  have hlen : l.drop (wsDropEnd l).length = (l.reverse.takeWhile Char.isWhitespace).reverse := by
    have h2 := congrArg (List.drop (wsDropEnd l).length) hdecomp
    rwa [List.drop_left] at h2
  refine ⟨by rw [hlen]; exact hdecomp, ?_⟩
  intro x hx
  rw [hlen] at hx
  exact List.mem_takeWhile_imp (List.mem_reverse.mp hx)

/-- The head of a front-trimmed nonempty list is not whitespace. -/
theorem wsDrop_head_not {c : Char} : ∀ {l cs : List Char}, wsDrop l = c :: cs →
    c.isWhitespace = false := by
  intro l
  induction l with
  | nil => intro cs h; simp [wsDrop] at h
  | cons a as ih =>
    intro cs h
    rw [wsDrop, List.dropWhile_cons] at h
    by_cases ha : a.isWhitespace = true
    · rw [if_pos ha] at h
      exact ih h
    · rw [if_neg ha] at h
      obtain ⟨rfl, -⟩ := List.cons.inj h
      simpa using ha

theorem wsDrop_wsDropEnd_comm (l : List Char) :
    wsDrop (wsDropEnd l) = wsDropEnd (wsDrop l) := by
  by_cases hr : wsDrop l = []
  · have hall : ∀ x ∈ l, x.isWhitespace = true := wsDrop_eq_nil_iff.mp hr
    rw [hr, wsDropEnd_nil, wsDropEnd_eq_nil_iff.mpr hall, wsDrop_nil]
  · rcases List.exists_cons_of_ne_nil hr with ⟨c, cs, hc⟩
    have hcw : c.isWhitespace = false := wsDrop_head_not hc
    have he : wsDropEnd (wsDrop l) ≠ [] := by
      intro he
      have h3 := wsDropEnd_eq_nil_iff.mp he c (by rw [hc]; exact List.mem_cons_self c cs)
      rw [hcw] at h3
      exact Bool.false_ne_true h3
    have hsplit : l.takeWhile Char.isWhitespace ++ wsDrop l = l :=
      List.takeWhile_append_dropWhile Char.isWhitespace l
    have htws : wsDrop (l.takeWhile Char.isWhitespace) = [] :=
      wsDrop_eq_nil_iff.mpr (fun x hx => List.mem_takeWhile_imp hx)
    conv_lhs => rw [← hsplit]
    rw [wsDropEnd_append_right _ he, wsDrop_append_all _ htws]
    rcases List.exists_cons_of_ne_nil he with ⟨d, ds, hd⟩
    have hdc : d = c := by
      have hpre : wsDropEnd (wsDrop l) <+: wsDrop l :=
        List.rdropWhile_prefix Char.isWhitespace (wsDrop l)
      rcases hpre with ⟨t, ht⟩
      rw [hd, hc] at ht
      have h4 := congrArg List.head? ht
      simpa using h4
    rw [hd, hdc, wsDrop_cons_neg _ hcw]

theorem charTrim_head (l : List Char) : wsDrop (charTrim l) = charTrim l := by
  show wsDrop (wsDropEnd (wsDrop l)) = wsDropEnd (wsDrop l)
  rw [wsDrop_wsDropEnd_comm, show wsDrop (wsDrop l) = wsDrop l from
    List.dropWhile_idempotent Char.isWhitespace l]

theorem charTrim_of_charTrim (l : List Char) : charTrim (charTrim l) = charTrim l := by
  show wsDropEnd (wsDrop (charTrim l)) = charTrim l
  rw [charTrim_head]
  show wsDropEnd (wsDropEnd (wsDrop l)) = wsDropEnd (wsDrop l)
  exact List.rdropWhile_idempotent Char.isWhitespace (wsDrop l)

theorem charTrim_all_ws {l : List Char} (h : ∀ x ∈ l, x.isWhitespace = true) :
    charTrim l = [] := by
  rw [charTrim, wsDrop_eq_nil_iff.mpr h, wsDropEnd_nil]

/-- `wsDrop (wsDropEnd l) = charTrim l` in the orientation produced by the
label capture. -/
theorem wsDrop_wsDropEnd_eq_charTrim (l : List Char) :
    wsDrop (wsDropEnd l) = charTrim l := by
  rw [wsDrop_wsDropEnd_comm]; rfl

/-! ## Structure of the extractor output -/

theorem filterMap_enumFrom_pos (f : Nat × Node → Option Node)
    (hf : ∀ p : Nat × Node, p.1 ≠ 0 → f p = some p.2) :
    ∀ (l : List Node) (n : Nat), n ≠ 0 →
      (List.enumFrom n l).filterMap f = l := by
  intro l
  induction l with
  | nil => intro n _; rfl
  | cons x xs ih =>
    intro n hn
    rw [List.enumFrom_cons, List.filterMap_cons, hf (n, x) hn]
    rw [ih (n + 1) (Nat.succ_ne_zero n)]

/-- The extractor output, with the skip-filter resolved: all lines when
`skip_first_line` is unset, all but the first line when set. -/
theorem extract_resolved (document : Node) (conf : CliArgs) :
    extract_highlighted_pieces document conf =
      if conf.skip_first_line then ((selectLines document).drop 1).flatMap lineRuns
      else (selectLines document).flatMap lineRuns := by
  by_cases h : conf.skip_first_line = true
  · rw [if_pos h]
    simp only [extract_highlighted_pieces, h, Bool.true_and]
    cases hl : selectLines document with
    | nil => rfl
    | cons l0 ls =>
      rw [List.enum_cons, List.filterMap_cons]
      have h0 : (if ((0 : Nat) == 0) = true then (none : Option Node) else some l0) = none := by
        simp
      simp only [h0]
      rw [filterMap_enumFrom_pos _ ?_ ls 1 one_ne_zero, List.drop_succ_cons, List.drop_zero]
      intro p hp
      have : (p.1 == 0) = false := by simpa using hp
      simp [this]
  · have hF : conf.skip_first_line = false := by
      cases hx : conf.skip_first_line
      · rfl
      · exact absurd hx h
    rw [if_neg (by simp [hF])]
    simp only [extract_highlighted_pieces, hF, Bool.false_and]
    rw [show (fun p : Nat × Node => if false = true then none else some p.2) =
      (some ∘ Prod.snd) from rfl]
    rw [List.filterMap_eq_map, List.enum_map_snd]

/-- When no `td.line` element is selected, the extractor returns no runs. -/
theorem extract_of_no_lines (document : Node) (conf : CliArgs)
    (h : selectLines document = []) : extract_highlighted_pieces document conf = [] := by
  rw [extract_resolved, h]
  cases conf.skip_first_line <;> rfl

mutual
/-- Every node selected within a subtree is an element matching `td.line`. -/
theorem selectLinesNode_shape : ∀ (n m : Node), m ∈ selectLinesNode n →
    ∃ t a cs, m = Node.element t a cs ∧ isLineElem t a = true
  | Node.text s, m, h => by simp [selectLinesNode] at h
  | Node.element t a cs, m, h => by
    simp only [selectLinesNode, List.mem_append] at h
    rcases h with h | h
    · by_cases hL : isLineElem t a = true
      · rw [if_pos hL] at h
        simp only [List.mem_singleton] at h
        exact ⟨t, a, cs, h, hL⟩
      · rw [if_neg hL] at h
        simp at h
    · exact selectLinesList_shape cs m h
/-- Every node selected within a forest is an element matching `td.line`. -/
theorem selectLinesList_shape : ∀ (ns : List Node) (m : Node), m ∈ selectLinesList ns →
    ∃ t a cs, m = Node.element t a cs ∧ isLineElem t a = true
  | [], m, h => by simp [selectLinesList] at h
  | n :: ns, m, h => by
    simp only [selectLinesList, List.mem_append] at h
    rcases h with h | h
    · exact selectLinesNode_shape n m h
    · exact selectLinesList_shape ns m h
end

mutual
/-- The text-with-parent pairs of one child project to its visible text. -/
theorem textsInChild_fst : ∀ (a : List (String × String)) (n : Node),
    (textsInChild a n).map Prod.fst = visText n
  | a, Node.text s => by simp [textsInChild, visText]
  | a, Node.element t b cs => by
    simp only [textsInChild, visText]
    exact textsUnder_fst b cs
/-- The text-with-parent pairs of a children list project to its visible
text. -/
theorem textsUnder_fst : ∀ (a : List (String × String)) (ns : List Node),
    (textsUnder a ns).map Prod.fst = visTextList ns
  | a, [] => by simp [textsUnder, visTextList]
  | a, n :: ns => by
    simp only [textsUnder, visTextList, List.map_append]
    rw [textsInChild_fst a n, textsUnder_fst a ns]
end

theorem lineRuns_map_text (t : String) (a : List (String × String)) (cs : List Node) :
    (lineRuns (Node.element t a cs)).map HighlightedText.text =
      visText (Node.element t a cs) := by
  show ((textsUnder a cs).map (fun p => mkRun p.1 p.2)).map HighlightedText.text = visTextList cs
  rw [List.map_map]
  exact textsUnder_fst a cs

theorem flatMap_congr_mem {α β : Type} (L : List α) (g h : α → List β)
    (H : ∀ x ∈ L, g x = h x) : L.flatMap g = L.flatMap h := by
  induction L with
  | nil => rfl
  | cons x xs ih =>
    rw [List.flatMap_cons, List.flatMap_cons, H x (List.mem_cons_self x xs),
      ih (fun y hy => H y (List.mem_cons_of_mem x hy))]

theorem mem_of_mem_skipFilter {l : List Node} {b : Bool} {x : Node}
    (hx : x ∈ l.enum.filterMap (fun p => if b && p.1 == 0 then none else some p.2)) :
    x ∈ l := by
  rcases List.mem_filterMap.mp hx with ⟨p, hp, hfp⟩
  have hx2 : x = p.2 := by
    by_cases hc : (b && p.1 == 0) = true
    · rw [if_pos hc] at hfp; cases hfp
    · rw [if_neg hc] at hfp
      exact (Option.some.inj hfp).symm
  subst hx2
  have := List.mem_map_of_mem Prod.snd hp
  rwa [List.enum_map_snd] at this

/-! ## Lemmas about the regex tail matcher -/

theorem wsDrop_append_pos {A : List Char} (X : List Char) (h : wsDrop A ≠ []) :
    wsDrop (A ++ X) = wsDrop A ++ X := by
  rw [wsDrop, List.dropWhile_append]
  have h1 : (List.dropWhile Char.isWhitespace A).isEmpty = false := by
    rw [show List.dropWhile Char.isWhitespace A = wsDrop A from rfl]
    simpa [List.isEmpty_iff] using h
  rw [h1]
  simp [wsDrop]

theorem contOk_eq (cs : List Char) :
    contOk cs = ("label:".data.isPrefixOf (wsDrop cs) || (wsDrop cs).isEmpty) := rfl

theorem contOk_ws_cons {c : Char} (cs : List Char) (h : c.isWhitespace = true) :
    contOk (c :: cs) = contOk cs := by
  rw [contOk_eq, contOk_eq, wsDrop_cons_pos _ h]

theorem contOk_of_label {cs : List Char}
    (h : "label:".data.isPrefixOf (wsDrop cs) = true) : contOk cs = true := by
  rw [contOk_eq, h, Bool.true_or]

theorem contOk_false_no_tail : ∀ {l : List Char}, wsDropEnd l ≠ [] →
    charsSub "label:".data l = false → contOk l = false := by
  intro l
  induction l with
  | nil => intro h _; exact absurd rfl h
  | cons c cs ih =>
    intro hmix hsub
    by_cases hc : c.isWhitespace = true
    · rw [contOk_ws_cons cs hc]
      refine ih ?_ (charsSub_tail hsub)
      intro hnil
      apply hmix
      rw [wsDropEnd_cons, if_pos hnil, if_pos hc]
    · rw [contOk_eq, wsDrop_cons_neg cs (by simpa using hc)]
      have h5 : "label:".data.isPrefixOf (c :: cs) = false := by
        cases hT : "label:".data.isPrefixOf (c :: cs)
        · rfl
        · exact absurd (List.isPrefixOf_iff_prefix.mp hT) (not_prefix_of_charsSub hsub)
      rw [h5]
      simp

theorem contOk_false_tail : ∀ {l : List Char} (t : List Char), wsDropEnd l ≠ [] →
    charsSub "label:".data l = false → contOk (l ++ ' ' :: t) = false := by
  intro l
  induction l with
  | nil => intro t h _; exact absurd rfl h
  | cons c cs ih =>
    intro t hmix hsub
    by_cases hc : c.isWhitespace = true
    · rw [show (c :: cs) ++ ' ' :: t = c :: (cs ++ ' ' :: t) from rfl,
        contOk_ws_cons (cs ++ ' ' :: t) hc]
      refine ih t ?_ (charsSub_tail hsub)
      intro hnil
      apply hmix
      rw [wsDropEnd_cons, if_pos hnil, if_pos hc]
    · rw [show (c :: cs) ++ ' ' :: t = c :: (cs ++ ' ' :: t) from rfl, contOk_eq,
        wsDrop_cons_neg _ (by simpa using hc)]
      have h5 : "label:".data.isPrefixOf (c :: (cs ++ ' ' :: t)) = false := by
        cases hT : "label:".data.isPrefixOf (c :: (cs ++ ' ' :: t))
        · rfl
        · have hp := List.isPrefixOf_iff_prefix.mp hT
          rw [show c :: (cs ++ ' ' :: t) = (c :: cs) ++ ' ' :: t from rfl] at hp
          exact absurd hp (label_not_prefix_append t (not_prefix_of_charsSub hsub))
      rw [h5]
      simp

theorem splitCont_of_contOk : ∀ (cs : List Char), contOk cs = true → splitCont cs = ([], cs)
  | [], _ => rfl
  | c :: cs, h => by simp [splitCont, h]

theorem splitCont_no_label : ∀ (x : List Char), wsDropEnd x = x →
    charsSub "label:".data x = false → splitCont x = (x, [])
  | [], _, _ => rfl
  | c :: cs, hx, hsub => by
    have hco : contOk (c :: cs) = false :=
      contOk_false_no_tail (by rw [hx]; exact List.cons_ne_nil c cs) hsub
    have hcs : wsDropEnd cs = cs := by
      rw [wsDropEnd_cons] at hx
      by_cases h0 : wsDropEnd cs = []
      · rw [if_pos h0] at hx
        by_cases hcw : c.isWhitespace = true
        · rw [if_pos hcw] at hx
          simp at hx
        · rw [if_neg hcw] at hx
          have h2 : cs = [] := by
            have := congrArg List.tail hx
            simpa using this.symm
          rw [h2, wsDropEnd_nil]
      · rw [if_neg h0] at hx
        exact (List.cons.inj hx).2
    simp only [splitCont, hco, Bool.false_eq_true, if_false]
    rw [splitCont_no_label cs hcs (charsSub_tail hsub)]

theorem splitCont_append : ∀ (l t : List Char), charsSub "label:".data l = false →
    "label:".data.isPrefixOf (wsDrop t) = true →
    splitCont (l ++ ' ' :: t) = (wsDropEnd l, l.drop (wsDropEnd l).length ++ ' ' :: t)
  | [], t, _, hlab => by
    have hco : contOk (' ' :: t) = true := by
      rw [contOk_ws_cons t (by decide)]
      exact contOk_of_label hlab
    rw [List.nil_append, splitCont_of_contOk _ hco]
    simp [wsDropEnd_nil]
  | c :: cs, t, hsub, hlab => by
    by_cases hmix : wsDropEnd (c :: cs) = []
    · have hall : ∀ x ∈ c :: cs, x.isWhitespace = true := wsDropEnd_eq_nil_iff.mp hmix
      have hwsd : wsDrop (c :: cs) = [] := wsDrop_eq_nil_iff.mpr hall
      have hco : contOk ((c :: cs) ++ ' ' :: t) = true := by
        apply contOk_of_label
        rw [wsDrop_append_all _ hwsd, wsDrop_space]
        exact hlab
      rw [splitCont_of_contOk _ hco, hmix]
      simp
    · have hco : contOk ((c :: cs) ++ ' ' :: t) = false := contOk_false_tail t hmix hsub
      have hch : wsDropEnd (c :: cs) = c :: wsDropEnd cs := by
        rw [wsDropEnd_cons]
        by_cases h0 : wsDropEnd cs = []
        · rw [if_pos h0, h0]
          by_cases hcw : c.isWhitespace = true
          · exfalso; apply hmix; rw [wsDropEnd_cons, if_pos h0, if_pos hcw]
          · rw [if_neg hcw]
        · rw [if_neg h0]
      rw [show (c :: cs) ++ ' ' :: t = c :: (cs ++ ' ' :: t) from rfl]
      simp only [splitCont, show contOk (c :: (cs ++ ' ' :: t)) = false from hco,
        Bool.false_eq_true, if_false]
      rw [splitCont_append cs t (charsSub_tail hsub) hlab, hch]
      simp [List.drop_succ_cons]

/-! ## Lemmas about `matchTail`, `findCaptures` and `tryCommentTypes` -/

/-- A successful tail match at the head occurrence of `chroma_code:` settles
the search. -/
theorem findCaptures_start (T : List Char) (r : Option (List Char) × Option (List Char))
    (h : matchTail T = some r) :
    findCaptures ("chroma_code:".data ++ T) = some r := by
  show findCaptures ('c' :: ("hroma_code:".data ++ T)) = some r
  have hp : "chroma_code:".data.isPrefixOf ('c' :: ("hroma_code:".data ++ T)) = true := by
    show "chroma_code:".data.isPrefixOf ("chroma_code:".data ++ T) = true
    exact isPrefixOf_append_self _ _
  simp only [findCaptures, hp, if_true]
  rw [show ('c' :: ("hroma_code:".data ++ T)).drop 12 = T from by
    show ("chroma_code:".data ++ T).drop 12 = T
    rw [show (12 : Nat) = ("chroma_code:".data).length from rfl, List.drop_left]]
  rw [h]

/-- Evaluation of the caption branch of `matchTail` when a `label:` part
follows: the caption capture is the trimmed caption text, the label capture is
the front-trimmed remainder `X`. -/
theorem findCaptures_caption_label (c X : List Char)
    (hsub : charsSub "label:".data c = false) :
    findCaptures ("chroma_code:".data ++
        (' ' :: ("caption:".data ++ (' ' :: (c ++ (' ' :: ("label:".data ++ X))))))) =
      some (some (charTrim c), some (wsDrop X)) := by
  apply findCaptures_start
  have hr1 : wsDrop (' ' :: ("caption:".data ++ (' ' :: (c ++ (' ' :: ("label:".data ++ X)))))) =
      "caption:".data ++ (' ' :: (c ++ (' ' :: ("label:".data ++ X)))) := by
    rw [wsDrop_space]
    exact wsDrop_append_keep _ (by decide) (by decide)
  have hdrop : ("caption:".data ++ (' ' :: (c ++ (' ' :: ("label:".data ++ X))))).drop 8 =
      ' ' :: (c ++ (' ' :: ("label:".data ++ X))) := by
    rw [show (8 : Nat) = ("caption:".data).length from rfl, List.drop_left]
  have hTT : wsDrop ("label:".data ++ X) = "label:".data ++ X :=
    wsDrop_append_keep _ (by decide) (by decide)
  have hTTpre : "label:".data.isPrefixOf (wsDrop ("label:".data ++ X)) = true := by
    rw [hTT]; exact isPrefixOf_append_self _ _
  have hdrop6 : ∀ Y : List Char, ("label:".data ++ Y).drop 6 = Y := by
    intro Y
    rw [show (6 : Nat) = ("label:".data).length from rfl, List.drop_left]
  simp only [matchTail, hr1, hdrop]
  rw [isPrefixOf_append_self]
  simp only [if_true]
  rw [wsDrop_space]
  by_cases hc1 : wsDrop c = []
  · -- the caption text is pure whitespace
    have hBody : wsDrop (c ++ (' ' :: ("label:".data ++ X))) = "label:".data ++ X := by
      rw [wsDrop_append_all _ hc1, wsDrop_space, hTT]
    rw [hBody]
    have hsplit : splitCont ("label:".data ++ X) = ([], "label:".data ++ X) :=
      splitCont_of_contOk _ (contOk_of_label hTTpre)
    rw [hsplit]
    simp only
    rw [hTT, isPrefixOf_append_self]
    simp only [if_true]
    rw [hdrop6 X]
    have hct : charTrim c = [] := charTrim_all_ws (wsDrop_eq_nil_iff.mp hc1)
    rw [hct]
  · have hBody : wsDrop (c ++ (' ' :: ("label:".data ++ X))) =
        wsDrop c ++ ' ' :: ("label:".data ++ X) := wsDrop_append_pos _ hc1
    rw [hBody]
    have hsplit := splitCont_append (wsDrop c) ("label:".data ++ X)
      (charsSub_dropWhile Char.isWhitespace hsub) hTTpre
    rw [hsplit]
    simp only
    have hdropped : wsDrop ((wsDrop c).drop (wsDropEnd (wsDrop c)).length ++
        ' ' :: ("label:".data ++ X)) = "label:".data ++ X := by
      rw [wsDrop_append_all _ (wsDrop_eq_nil_iff.mpr ((wsDropEnd_decomp (wsDrop c)).2)),
        wsDrop_space, hTT]
    rw [hdropped, isPrefixOf_append_self]
    simp only [if_true]
    rw [hdrop6 X]
    rfl

/-- Evaluation of the caption branch of `matchTail` when nothing follows the
(right-trimmed, non-whitespace) caption text. -/
theorem findCaptures_caption_only (cT : List Char)
    (hsub : charsSub "label:".data cT = false)
    (hcT : wsDropEnd cT = cT) :
    findCaptures ("chroma_code:".data ++ (' ' :: ("caption:".data ++ (' ' :: cT)))) =
      some (some (wsDrop cT), none) := by
  apply findCaptures_start
  have hr1 : wsDrop (' ' :: ("caption:".data ++ (' ' :: cT))) =
      "caption:".data ++ (' ' :: cT) := by
    rw [wsDrop_space]
    exact wsDrop_append_keep _ (by decide) (by decide)
  have hdrop : ("caption:".data ++ (' ' :: cT)).drop 8 = ' ' :: cT := by
    rw [show (8 : Nat) = ("caption:".data).length from rfl, List.drop_left]
  simp only [matchTail, hr1, hdrop]
  rw [isPrefixOf_append_self]
  simp only [if_true]
  rw [wsDrop_space]
  have hend : wsDropEnd (wsDrop cT) = wsDrop cT := by
    rw [← wsDrop_wsDropEnd_comm, hcT]
  have hsubT : charsSub "label:".data (wsDrop cT) = false :=
    charsSub_dropWhile Char.isWhitespace hsub
  rw [splitCont_no_label (wsDrop cT) hend hsubT]
  simp only
  rw [wsDrop_nil, isPrefixOf_nil_false]
  simp

/-- Evaluation of the label-only branch of `matchTail`. -/
theorem findCaptures_label_only (X : List Char) :
    findCaptures ("chroma_code:".data ++ (' ' :: ("label:".data ++ X))) =
      some (none, some (wsDrop X)) := by
  apply findCaptures_start
  have hr1 : wsDrop (' ' :: ("label:".data ++ X)) = "label:".data ++ X := by
    rw [wsDrop_space]
    exact wsDrop_append_keep _ (by decide) (by decide)
  have hcap : "caption:".data.isPrefixOf ("label:".data ++ X) = false := by
    show ('c' :: "aption:".data).isPrefixOf ('l' :: ("abel:".data ++ X)) = false
    exact isPrefixOf_cons_ne _ _ (by decide)
  simp only [matchTail, hr1, hcap, Bool.false_eq_true, if_false]
  rw [isPrefixOf_append_self]
  simp only [if_true]
  rw [show (6 : Nat) = ("label:".data).length from rfl, List.drop_left]

theorem tryCommentTypes_skip (fl : List Char) : ∀ (pre rest : List String),
    (∀ ct ∈ pre, ct.data.isPrefixOf fl = false) →
    tryCommentTypes fl (pre ++ rest) = tryCommentTypes fl rest
  | [], _, _ => rfl
  | ct :: pre, rest, h => by
    have hct : ct.data.isPrefixOf fl = false := h ct (List.mem_cons_self ct pre)
    show tryCommentTypes fl (ct :: (pre ++ rest)) = _
    simp only [tryCommentTypes, hct, Bool.false_eq_true, if_false]
    exact tryCommentTypes_skip fl pre rest (fun x hx => h x (List.mem_cons_of_mem ct hx))

theorem tryCommentTypes_none (fl : List Char) : ∀ (cts : List String),
    (∀ ct ∈ cts, ct.data.isPrefixOf fl = false) → tryCommentTypes fl cts = none
  | [], _ => rfl
  | ct :: rest, h => by
    simp only [tryCommentTypes, h ct (List.mem_cons_self ct rest), Bool.false_eq_true, if_false]
    exact tryCommentTypes_none fl rest (fun x hx => h x (List.mem_cons_of_mem ct hx))

theorem tryCommentTypes_hit (fl : List Char) (ct : String) (rest : List String)
    (c1 c2 : Option (List Char))
    (hpre : ct.data.isPrefixOf fl = true)
    (hcaps : findCaptures (charTrim (fl.drop ct.data.length)) = some (c1, c2))
    (hnontrivial : (c1.isSome || c2.isSome) = true) :
    tryCommentTypes fl (ct :: rest) =
      some ⟨c1.map (fun m => String.mk (charTrim m)),
            c2.map (fun m => String.mk (charTrim m))⟩ := by
  simp only [tryCommentTypes, hpre, if_true, hcaps]
  cases c1 <;> cases c2
  · simp at hnontrivial
  all_goals simp

theorem parse_header_of_firstLine {content : String} {fl : List Char}
    (h : firstLineChars content.data = some fl) (cts : List String) :
    parse_header content cts = tryCommentTypes fl cts := by
  simp only [parse_header, h]

/-! ## Evaluating the trimmed header lines -/

theorem charsSub_iff_middle {n : List Char} : ∀ {l : List Char},
    charsSub n l = true ↔ n <:+: l := by
  intro l
  induction l with
  | nil =>
    simp only [charsSub, List.infix_nil, List.isEmpty_iff]
  | cons c cs ih =>
    simp only [charsSub, Bool.or_eq_true, ih, List.isPrefixOf_iff_prefix]
    exact (List.infix_cons_iff).symm

theorem charsSub_false_mono {n l l' : List Char} (h : charsSub n l = false)
    (hp : l' <+: l) : charsSub n l' = false := by
  cases hT : charsSub n l'
  · rfl
  · exfalso
    have h1 : charsSub n l = true :=
      charsSub_iff_middle.mpr ((charsSub_iff_middle.mp hT).trans hp.isInfix)
    rw [h1] at h
    cases h

theorem wsDropEnd_append_space (A l : List Char) :
    wsDropEnd (A ++ (' ' :: l)) =
      if wsDropEnd l = [] then wsDropEnd A else A ++ (' ' :: wsDropEnd l) := by
  by_cases h : wsDropEnd l = []
  · rw [if_pos h]
    refine wsDropEnd_append_all A ?_
    intro x hx
    rcases List.mem_cons.mp hx with rfl | hx
    · decide
    · exact wsDropEnd_eq_nil_iff.mp h x hx
  · rw [if_neg h, wsDropEnd_append_right A
      (by rw [wsDropEnd_cons, if_neg h]; exact List.cons_ne_nil _ _)]
    rw [wsDropEnd_cons, if_neg h]

theorem findCaptures_trim_caption_label (c l : String)
    (hsub : charsSub "label:".data c.data = false) :
    findCaptures (charTrim
      (" chroma_code: caption: ".data ++ (c.data ++ (" label: ".data ++ l.data)))) =
      some (some (charTrim c.data), some (charTrim l.data)) := by
  have hnorm : " chroma_code: caption: ".data ++ (c.data ++ (" label: ".data ++ l.data)) =
      ' ' :: ("chroma_code:".data ++ (' ' :: ("caption:".data ++
        (' ' :: (c.data ++ (' ' :: ("label:".data ++ (' ' :: l.data)))))))) := by
    have hA : (" chroma_code: caption: ").data =
        ' ' :: ("chroma_code:".data ++ (' ' :: ("caption:".data ++ [' ']))) := by decide
    have hB : (" label: ").data = ' ' :: ("label:".data ++ [' ']) := by decide
    rw [hA, hB]
    simp [List.append_assoc]
  rw [hnorm]
  simp only [charTrim]
  rw [show wsDrop (' ' :: ("chroma_code:".data ++ (' ' :: ("caption:".data ++
        (' ' :: (c.data ++ (' ' :: ("label:".data ++ (' ' :: l.data))))))))) =
      "chroma_code:".data ++ (' ' :: ("caption:".data ++
        (' ' :: (c.data ++ (' ' :: ("label:".data ++ (' ' :: l.data))))))) from by
    rw [wsDrop_space]
    exact wsDrop_append_keep _ (by decide) (by decide)]
  have hre1 : "chroma_code:".data ++ (' ' :: ("caption:".data ++
      (' ' :: (c.data ++ (' ' :: ("label:".data ++ (' ' :: l.data))))))) =
      ("chroma_code:".data ++ (' ' :: ("caption:".data ++
        (' ' :: (c.data ++ (' ' :: "label:".data)))))) ++ (' ' :: l.data) := by
    simp [List.append_assoc]
  rw [hre1, wsDropEnd_append_space]
  by_cases hl0 : wsDropEnd l.data = []
  · rw [if_pos hl0]
    have hre2 : "chroma_code:".data ++ (' ' :: ("caption:".data ++
        (' ' :: (c.data ++ (' ' :: "label:".data))))) =
        ("chroma_code:".data ++ (' ' :: ("caption:".data ++
          (' ' :: (c.data ++ [' ']))))) ++ "label:".data := by
      simp [List.append_assoc]
    rw [hre2, wsDropEnd_append_right _ (by decide),
      (by decide : wsDropEnd ("label:".data) = "label:".data), ← hre2]
    have hre3 : "chroma_code:".data ++ (' ' :: ("caption:".data ++
        (' ' :: (c.data ++ (' ' :: "label:".data))))) =
        "chroma_code:".data ++ (' ' :: ("caption:".data ++
          (' ' :: (c.data ++ (' ' :: ("label:".data ++ ([] : List Char))))))) := by
      simp
    rw [hre3, findCaptures_caption_label c.data [] hsub,
      show wsDropEnd (wsDrop l.data) = ([] : List Char) from
        charTrim_all_ws (wsDropEnd_eq_nil_iff.mp hl0)]
    rfl
  · rw [if_neg hl0]
    have hre4 : ("chroma_code:".data ++ (' ' :: ("caption:".data ++
        (' ' :: (c.data ++ (' ' :: "label:".data)))))) ++ (' ' :: wsDropEnd l.data) =
        "chroma_code:".data ++ (' ' :: ("caption:".data ++
          (' ' :: (c.data ++ (' ' :: ("label:".data ++ (' ' :: wsDropEnd l.data))))))) := by
      simp [List.append_assoc]
    rw [hre4, findCaptures_caption_label c.data (' ' :: wsDropEnd l.data) hsub,
      wsDrop_space, wsDrop_wsDropEnd_eq_charTrim]
    rfl

theorem findCaptures_trim_caption_only (c : String)
    (hsub : charsSub "label:".data c.data = false) :
    findCaptures (charTrim (" chroma_code: caption: ".data ++ c.data)) =
      some (some (charTrim c.data), none) := by
  have hnorm : " chroma_code: caption: ".data ++ c.data =
      ' ' :: ("chroma_code:".data ++ (' ' :: ("caption:".data ++ (' ' :: c.data)))) := by
    have hA : (" chroma_code: caption: ").data =
        ' ' :: ("chroma_code:".data ++ (' ' :: ("caption:".data ++ [' ']))) := by decide
    rw [hA]
    simp [List.append_assoc]
  rw [hnorm]
  simp only [charTrim]
  rw [show wsDrop (' ' :: ("chroma_code:".data ++ (' ' :: ("caption:".data ++ (' ' :: c.data))))) =
      "chroma_code:".data ++ (' ' :: ("caption:".data ++ (' ' :: c.data))) from by
    rw [wsDrop_space]
    exact wsDrop_append_keep _ (by decide) (by decide)]
  have hre1 : "chroma_code:".data ++ (' ' :: ("caption:".data ++ (' ' :: c.data))) =
      ("chroma_code:".data ++ (' ' :: "caption:".data)) ++ (' ' :: c.data) := by
    simp [List.append_assoc]
  rw [hre1, wsDropEnd_append_space]
  by_cases hc0 : wsDropEnd c.data = []
  · rw [if_pos hc0]
    rw [(by decide : wsDropEnd ("chroma_code:".data ++ (' ' :: "caption:".data)) =
      "chroma_code:".data ++ (' ' :: "caption:".data))]
    rw [(by decide : findCaptures ("chroma_code:".data ++ (' ' :: "caption:".data)) =
      some (some ([] : List Char), none))]
    rw [show wsDropEnd (wsDrop c.data) = ([] : List Char) from
      charTrim_all_ws (wsDropEnd_eq_nil_iff.mp hc0)]
  · rw [if_neg hc0]
    have hre2 : ("chroma_code:".data ++ (' ' :: "caption:".data)) ++ (' ' :: wsDropEnd c.data) =
        "chroma_code:".data ++ (' ' :: ("caption:".data ++ (' ' :: wsDropEnd c.data))) := by
      simp [List.append_assoc]
    rw [hre2, findCaptures_caption_only (wsDropEnd c.data)
        (charsSub_false_mono hsub (List.rdropWhile_prefix _ _))
        (List.rdropWhile_idempotent _ _),
      wsDrop_wsDropEnd_eq_charTrim]
    rfl

theorem findCaptures_trim_label_only (l : String) :
    findCaptures (charTrim (" chroma_code: label: ".data ++ l.data)) =
      some (none, some (charTrim l.data)) := by
  have hnorm : " chroma_code: label: ".data ++ l.data =
      ' ' :: ("chroma_code:".data ++ (' ' :: ("label:".data ++ (' ' :: l.data)))) := by
    have hA : (" chroma_code: label: ").data =
        ' ' :: ("chroma_code:".data ++ (' ' :: ("label:".data ++ [' ']))) := by decide
    rw [hA]
    simp [List.append_assoc]
  rw [hnorm]
  simp only [charTrim]
  rw [show wsDrop (' ' :: ("chroma_code:".data ++ (' ' :: ("label:".data ++ (' ' :: l.data))))) =
      "chroma_code:".data ++ (' ' :: ("label:".data ++ (' ' :: l.data))) from by
    rw [wsDrop_space]
    exact wsDrop_append_keep _ (by decide) (by decide)]
  have hre1 : "chroma_code:".data ++ (' ' :: ("label:".data ++ (' ' :: l.data))) =
      ("chroma_code:".data ++ (' ' :: "label:".data)) ++ (' ' :: l.data) := by
    simp [List.append_assoc]
  rw [hre1, wsDropEnd_append_space]
  by_cases hl0 : wsDropEnd l.data = []
  · rw [if_pos hl0]
    rw [(by decide : wsDropEnd ("chroma_code:".data ++ (' ' :: "label:".data)) =
      "chroma_code:".data ++ (' ' :: "label:".data))]
    rw [(by decide : findCaptures ("chroma_code:".data ++ (' ' :: "label:".data)) =
      some (none, some ([] : List Char)))]
    rw [show wsDropEnd (wsDrop l.data) = ([] : List Char) from
      charTrim_all_ws (wsDropEnd_eq_nil_iff.mp hl0)]
  · rw [if_neg hl0]
    have hre2 : ("chroma_code:".data ++ (' ' :: "label:".data)) ++ (' ' :: wsDropEnd l.data) =
        "chroma_code:".data ++ (' ' :: ("label:".data ++ (' ' :: wsDropEnd l.data))) := by
      simp [List.append_assoc]
    rw [hre2, findCaptures_label_only (' ' :: wsDropEnd l.data), wsDrop_space,
      wsDrop_wsDropEnd_eq_charTrim]
    rfl

/-! ## Claim theorems -/

/-- C10: for every input document and every options value (any default color,
any style attributes), every run returned by `extract_highlighted_pieces` has
`hex_color = "000000"`: the first arm of the color match is the irrefutable
binding pattern `none`, so the uppercasing `Some` arm is never taken. -/
theorem hex_color_always_black (document : Node) (conf : CliArgs) :
    ∀ r ∈ extract_highlighted_pieces document conf, r.hex_color = "000000" := by
  intro r hr
  simp only [extract_highlighted_pieces] at hr
  rcases List.mem_flatMap.mp hr with ⟨line, _, hrun⟩
  simp only [lineRuns] at hrun
  rcases List.mem_map.mp hrun with ⟨p, _, hpe⟩
  rw [← hpe]
  rfl

/-- Witness for C10 at a concrete document whose styled node is red. -/
theorem hex_color_always_black_witness :
    (HighlightedText.mk "x" "000000" false false false).hex_color = "000000" :=
  hex_color_always_black docRed conf0 (HighlightedText.mk "x" "000000" false false false)
    (by rw [show extract_highlighted_pieces docRed conf0 =
          [HighlightedText.mk "x" "000000" false false false] from rfl]
        exact List.mem_singleton_self _)

/-- C1: the code contradicts the claim.  The hex-color regex does match the
style text `color: #ff0000` (first conjunct), the dead `Some` arm would
produce the uppercased digits `FF0000` (second conjunct), yet the run the
extractor produces carries `hex_color = "000000"` (third conjunct), because
the first match arm is the irrefutable binder `none` in `parser.rs` line 89. -/
theorem color_never_extracted :
    findHexColor "color: #ff0000" = some "#ff0000" ∧
    someArmColor "#ff0000" = "FF0000" ∧
    extract_highlighted_pieces docRed conf0 =
      [HighlightedText.mk "x" "000000" false false false] :=
  ⟨rfl, rfl, rfl⟩

/-- C4: the code contradicts the claim.  With the configured default color set
to `FF0000` and a matched node with no style attribute, the run still carries
`hex_color = "000000"`: `conf.default_color` is never read by
`extract_highlighted_pieces` (the fallback at parser.rs lines 77, 86 and 89 is
the hard-coded black).  The style flags are `false` as the claim says. -/
theorem default_color_not_used :
    ({ conf0 with default_color := "FF0000" } : CliArgs).default_color = "FF0000" ∧
    extract_highlighted_pieces docNoStyle { conf0 with default_color := "FF0000" } =
      [HighlightedText.mk "x" "000000" false false false] :=
  ⟨rfl, rfl⟩

/-- C9: a validly decoded document in which no `td.line` element is selected
produces an empty run sequence (and the extractor cannot fail there: it is a
total function of the parsed tree). -/
theorem empty_selection_empty_output (document : Node) (conf : CliArgs)
    (h : selectLines document = []) :
    extract_highlighted_pieces document conf = [] :=
  extract_of_no_lines document conf h

/-- Witness for C9 at a concrete document with no line elements. -/
theorem empty_selection_empty_output_witness :
    extract_highlighted_pieces docNoLines conf0 = [] :=
  empty_selection_empty_output docNoLines conf0 rfl

/-- C3 counterexample: on the convention-(b) document `spanDoc`, which holds
exactly one styled `<span>` with text `hello` inside `<pre><code>` and no
`td.line` rows, the extractor produces no run at all instead of one styled run
per span: the only selector it queries is `td.line` (parser.rs line 51). -/
theorem convention_b_no_runs_on_span_doc :
    visText spanDoc = ["hello"] ∧ extract_highlighted_pieces spanDoc conf0 = [] :=
  ⟨rfl, rfl⟩

/-- C3 (amended): the extractor supports only convention (a) (`td.line` table
rows); every convention-(b) document — spans with inline styles nested in
`<pre><code>`, no line rows — yields the empty run sequence, for every
configuration. -/
theorem convention_b_documents_yield_no_runs
    (spans : List (List (String × String) × String)) (conf : CliArgs) :
    extract_highlighted_pieces (preCodeSpanDoc spans) conf = [] := by
  apply extract_of_no_lines
  show selectLinesNode (preCodeSpanDoc spans) = []
  have haux : ∀ sp : List (List (String × String) × String),
      selectLinesList (sp.map (fun p => Node.element "span" p.1 [Node.text p.2])) = [] := by
    intro sp
    induction sp with
    | nil => rfl
    | cons p ps ih =>
      simp only [List.map_cons, selectLinesList, selectLinesNode]
      rw [ih]
      have hspan : isLineElem "span" p.1 = false := by
        simp [isLineElem, show ("span" == "td") = false by decide]
      rw [hspan]
      simp [selectLinesList, selectLinesNode]
  simp only [preCodeSpanDoc, selectLinesNode, selectLinesList, List.append_nil]
  rw [haux spans]
  simp [show isLineElem "html" [] = false by decide, show isLineElem "body" [] = false by decide,
    show isLineElem "pre" [] = false by decide, show isLineElem "code" [] = false by decide]

/-- C6: on a document with at least two highlighted lines, setting
`skip_first_line` removes exactly the runs of the first selected line: the
output is the concatenation of the runs of the remaining lines, and the output
without the flag is the first line's runs followed by exactly that. -/
theorem skip_first_line_semantics (document : Node) (conf : CliArgs) (l0 l1 : Node)
    (rest : List Node) (h : selectLines document = l0 :: l1 :: rest) :
    extract_highlighted_pieces document { conf with skip_first_line := true } =
      (l1 :: rest).flatMap lineRuns ∧
    extract_highlighted_pieces document { conf with skip_first_line := false } =
      lineRuns l0 ++ (l1 :: rest).flatMap lineRuns := by
  constructor
  · rw [extract_resolved, if_pos rfl, h]
    rfl
  · rw [extract_resolved, if_neg (fun hx => Bool.false_ne_true hx), h, List.flatMap_cons]

/-- Witness for C6 at a concrete two-line document. -/
theorem skip_first_line_semantics_witness :
    extract_highlighted_pieces doc2 { conf0 with skip_first_line := true } =
      (tdB :: []).flatMap lineRuns ∧
    extract_highlighted_pieces doc2 { conf0 with skip_first_line := false } =
      lineRuns tdA ++ (tdB :: []).flatMap lineRuns :=
  skip_first_line_semantics doc2 conf0 tdA tdB [] rfl

/-- C2 counterexample: with a `td.line` element nested inside another
`td.line` element the extractor emits the single text node `x` twice — once
per matched ancestor line — while the visible text content restricted to the
matched line nodes (each text node once, in document order) is just `x`.
So a text node under a matched line can be duplicated. -/
theorem concat_nested_duplication :
    (extract_highlighted_pieces nestedDoc conf0).map HighlightedText.text = ["x", "x"] ∧
    textsUnderLinesList false [nestedDoc] = ["x"] :=
  ⟨rfl, rfl⟩

/-- C2 (amended): for every document and options, the texts of the extracted
runs are exactly the concatenation, over the selected line elements that
survive the skip-first-line filter, of each line's visible text pieces in
document order — nothing dropped (a text node with a style-less parent still
contributes), nothing reordered, and each line's text emitted exactly once per
selected line (so a text node is duplicated only when nested `td.line`
elements both match it). -/
theorem concat_text_per_line (document : Node) (conf : CliArgs) :
    (extract_highlighted_pieces document conf).map HighlightedText.text =
      ((selectLines document).enum.filterMap
        (fun p => if conf.skip_first_line && p.1 == 0 then none else some p.2)).flatMap
        visText := by
  simp only [extract_highlighted_pieces]
  rw [List.map_flatMap]
  apply flatMap_congr_mem
  intro line hline
  have hmem : line ∈ selectLines document := mem_of_mem_skipFilter hline
  obtain ⟨t, a, cs, rfl, -⟩ := selectLinesNode_shape document line hmem
  exact lineRuns_map_text t a cs

/-- C8: every run's bold/underline/italic flags are exactly the substring
checks for the keywords `bold`, `underline`, `italic` on the style text of the
node it was built from, and a node with no style attribute gets all three
flags `false` (its style text defaults to `color: #000000`, which contains
none of the keywords). -/
theorem style_flags_by_keywords (document : Node) (conf : CliArgs) :
    ∀ r ∈ extract_highlighted_pieces document conf,
      ∃ s a, r = mkRun s a ∧
        r.bold = strContainsSub (styleText a) "bold" ∧
        r.underline = strContainsSub (styleText a) "underline" ∧
        r.italic = strContainsSub (styleText a) "italic" ∧
        (attrLookup a "style" = none →
          r.bold = false ∧ r.underline = false ∧ r.italic = false) := by
  intro r hr
  simp only [extract_highlighted_pieces] at hr
  rcases List.mem_flatMap.mp hr with ⟨line, _, hrun⟩
  simp only [lineRuns] at hrun
  rcases List.mem_map.mp hrun with ⟨p, _, hpe⟩
  refine ⟨p.1, p.2, hpe.symm, ?_, ?_, ?_, ?_⟩
  · rw [← hpe]; rfl
  · rw [← hpe]; rfl
  · rw [← hpe]; rfl
  · intro hnone
    have hst : styleText p.2 = "color: #000000" := by
      simp [styleText, hnone]
    rw [← hpe]
    refine ⟨?_, ?_, ?_⟩
    · show strContainsSub (styleText p.2) "bold" = false
      rw [hst]; decide
    · show strContainsSub (styleText p.2) "underline" = false
      rw [hst]; decide
    · show strContainsSub (styleText p.2) "italic" = false
      rw [hst]; decide

/-- Witness for C8 at a concrete document with a bold node. -/
theorem style_flags_by_keywords_witness :
    ∃ s a, HighlightedText.mk "x" "000000" true false false = mkRun s a ∧
      (HighlightedText.mk "x" "000000" true false false).bold =
        strContainsSub (styleText a) "bold" ∧
      (HighlightedText.mk "x" "000000" true false false).underline =
        strContainsSub (styleText a) "underline" ∧
      (HighlightedText.mk "x" "000000" true false false).italic =
        strContainsSub (styleText a) "italic" ∧
      (attrLookup a "style" = none →
        (HighlightedText.mk "x" "000000" true false false).bold = false ∧
        (HighlightedText.mk "x" "000000" true false false).underline = false ∧
        (HighlightedText.mk "x" "000000" true false false).italic = false) :=
  style_flags_by_keywords docBold conf0 (HighlightedText.mk "x" "000000" true false false)
    (by rw [show extract_highlighted_pieces docBold conf0 =
          [HighlightedText.mk "x" "000000" true false false] from rfl]
        exact List.mem_singleton_self _)

/-- C5: the extractor fails with the data-format exit (producing no runs)
exactly on byte sequences that are not valid UTF-8; on valid byte sequences it
decodes and proceeds, never raising that error. -/
theorem utf8_decode_gate (parse : String → Node) (stdout : List Nat) (conf : CliArgs) :
    (utf8Decode stdout = none →
      extract_from_bytes parse stdout conf = ExtractResult.dataErrExit) ∧
    ∀ cs, utf8Decode stdout = some cs →
      extract_from_bytes parse stdout conf =
        ExtractResult.ok (extract_highlighted_pieces (parse (String.mk cs)) conf) := by
  constructor
  · intro h
    simp [extract_from_bytes, h]
  · intro cs h
    simp [extract_from_bytes, h]

/-- C7: a first-line comment of one of the configured prefixes carrying a
`chroma_code` header overrides caption and/or label with the trimmed header
strings and tells the extractor to skip the first highlighted line; without a
parsed header (in particular when no comment prefix matches the first line)
`parse_header` returns `none` and the configuration is unchanged.  The five
conjuncts cover: caption-and-label headers, caption-only headers, label-only
headers, the no-header/no-change direction, and the no-prefix/`none`
direction.  `pre` are the comment types tried before the matching one. -/
theorem header_override_semantics (conf : CliArgs) :
    (∀ (content ct c l : String) (pre post : List String),
      splitComma conf.header_comment_types = pre ++ ct :: post →
      firstLineChars content.data =
        some ((ct ++ " chroma_code: caption: " ++ c ++ " label: " ++ l).data) →
      (∀ ct' ∈ pre, ct'.data.isPrefixOf
        ((ct ++ " chroma_code: caption: " ++ c ++ " label: " ++ l).data) = false) →
      charsSub "label:".data c.data = false →
      parse_header content (splitComma conf.header_comment_types) =
        some ⟨some (String.mk (charTrim c.data)), some (String.mk (charTrim l.data))⟩ ∧
      applyHeader conf content =
        { conf with caption := String.mk (charTrim c.data),
                    label := String.mk (charTrim l.data), skip_first_line := true }) ∧
    (∀ (content ct c : String) (pre post : List String),
      splitComma conf.header_comment_types = pre ++ ct :: post →
      firstLineChars content.data = some ((ct ++ " chroma_code: caption: " ++ c).data) →
      (∀ ct' ∈ pre,
        ct'.data.isPrefixOf ((ct ++ " chroma_code: caption: " ++ c).data) = false) →
      charsSub "label:".data c.data = false →
      parse_header content (splitComma conf.header_comment_types) =
        some ⟨some (String.mk (charTrim c.data)), none⟩ ∧
      applyHeader conf content =
        { conf with caption := String.mk (charTrim c.data), skip_first_line := true }) ∧
    (∀ (content ct l : String) (pre post : List String),
      splitComma conf.header_comment_types = pre ++ ct :: post →
      firstLineChars content.data = some ((ct ++ " chroma_code: label: " ++ l).data) →
      (∀ ct' ∈ pre,
        ct'.data.isPrefixOf ((ct ++ " chroma_code: label: " ++ l).data) = false) →
      parse_header content (splitComma conf.header_comment_types) =
        some ⟨none, some (String.mk (charTrim l.data))⟩ ∧
      applyHeader conf content =
        { conf with label := String.mk (charTrim l.data), skip_first_line := true }) ∧
    (∀ content : String,
      parse_header content (splitComma conf.header_comment_types) = none →
      applyHeader conf content = conf) ∧
    (∀ (content : String) (fl : List Char), firstLineChars content.data = some fl →
      (∀ ct ∈ splitComma conf.header_comment_types, ct.data.isPrefixOf fl = false) →
      parse_header content (splitComma conf.header_comment_types) = none) := by
  refine ⟨?_, ?_, ?_, ?_, ?_⟩
  · intro content ct c l pre post hcts hfl hpre hsub
    have hdata : (ct ++ " chroma_code: caption: " ++ c ++ " label: " ++ l).data =
        ct.data ++ (" chroma_code: caption: ".data ++ (c.data ++ (" label: ".data ++ l.data))) := by
      simp [String.data_append, List.append_assoc]
    have hP : parse_header content (splitComma conf.header_comment_types) =
        some ⟨some (String.mk (charTrim c.data)), some (String.mk (charTrim l.data))⟩ := by
      rw [parse_header_of_firstLine hfl, hcts, tryCommentTypes_skip _ pre (ct :: post) hpre]
      have hct2 : ct.data.isPrefixOf
          ((ct ++ " chroma_code: caption: " ++ c ++ " label: " ++ l).data) = true := by
        rw [hdata]; exact isPrefixOf_append_self _ _
      rw [tryCommentTypes_hit _ ct post (some (charTrim c.data)) (some (charTrim l.data))
        hct2 ?_ (by simp)]
      · simp [charTrim_of_charTrim]
      · rw [hdata, List.drop_left]
        exact findCaptures_trim_caption_label c l hsub
    refine ⟨hP, ?_⟩
    simp only [applyHeader, hP]
    rfl
  · intro content ct c pre post hcts hfl hpre hsub
    have hdata : (ct ++ " chroma_code: caption: " ++ c).data =
        ct.data ++ (" chroma_code: caption: ".data ++ c.data) := by
      simp [String.data_append, List.append_assoc]
    have hP : parse_header content (splitComma conf.header_comment_types) =
        some ⟨some (String.mk (charTrim c.data)), none⟩ := by
      rw [parse_header_of_firstLine hfl, hcts, tryCommentTypes_skip _ pre (ct :: post) hpre]
      have hct2 : ct.data.isPrefixOf ((ct ++ " chroma_code: caption: " ++ c).data) = true := by
        rw [hdata]; exact isPrefixOf_append_self _ _
      rw [tryCommentTypes_hit _ ct post (some (charTrim c.data)) none hct2 ?_ (by simp)]
      · simp [charTrim_of_charTrim]
      · rw [hdata, List.drop_left]
        exact findCaptures_trim_caption_only c hsub
    refine ⟨hP, ?_⟩
    simp only [applyHeader, hP]
    rfl
  · intro content ct l pre post hcts hfl hpre
    have hdata : (ct ++ " chroma_code: label: " ++ l).data =
        ct.data ++ (" chroma_code: label: ".data ++ l.data) := by
      simp [String.data_append, List.append_assoc]
    have hP : parse_header content (splitComma conf.header_comment_types) =
        some ⟨none, some (String.mk (charTrim l.data))⟩ := by
      rw [parse_header_of_firstLine hfl, hcts, tryCommentTypes_skip _ pre (ct :: post) hpre]
      have hct2 : ct.data.isPrefixOf ((ct ++ " chroma_code: label: " ++ l).data) = true := by
        rw [hdata]; exact isPrefixOf_append_self _ _
      rw [tryCommentTypes_hit _ ct post none (some (charTrim l.data)) hct2 ?_ (by simp)]
      · simp [charTrim_of_charTrim]
      · rw [hdata, List.drop_left]
        exact findCaptures_trim_label_only l
    refine ⟨hP, ?_⟩
    simp only [applyHeader, hP]
    rfl
  · intro content h
    simp only [applyHeader, h]
  · intro content fl hfl hall
    rw [parse_header_of_firstLine hfl]
    exact tryCommentTypes_none fl _ hall

/-- Witness for C7 at a concrete header line with both a caption and a
label. -/
theorem header_override_semantics_witness :
    parse_header "# chroma_code: caption: My Caption label: my-label\nfn x"
        (splitComma conf0.header_comment_types) =
      some ⟨some (String.mk (charTrim ("My Caption" : String).data)),
            some (String.mk (charTrim ("my-label" : String).data))⟩ ∧
    applyHeader conf0 "# chroma_code: caption: My Caption label: my-label\nfn x" =
      { conf0 with caption := String.mk (charTrim ("My Caption" : String).data),
                   label := String.mk (charTrim ("my-label" : String).data),
                   skip_first_line := true } :=
  (header_override_semantics conf0).1
    "# chroma_code: caption: My Caption label: my-label\nfn x"
    "#" "My Caption" "my-label" [] ["//"]
    (by decide) (by decide)
    (by intro ct' h; exact absurd h (List.not_mem_nil ct'))
    (by decide)

/-- Witness for C5: the lone byte `0xFF` is invalid UTF-8 and aborts; the byte
`0x68` decodes to `h` and extraction proceeds. -/
theorem utf8_decode_gate_witness :
    extract_from_bytes (fun _ => docNoLines) [255] conf0 = ExtractResult.dataErrExit ∧
    extract_from_bytes (fun _ => docNoLines) [104] conf0 =
      ExtractResult.ok
        (extract_highlighted_pieces ((fun _ : String => docNoLines) (String.mk ['h'])) conf0) :=
  ⟨(utf8_decode_gate (fun _ => docNoLines) [255] conf0).1 rfl,
   (utf8_decode_gate (fun _ => docNoLines) [104] conf0).2 ['h'] rfl⟩

end ChromaCode
